import Mathlib

/-!
Verification of the CDPedia search-index contract and its satellite tools.

The repository ships the index's shared test suite (src/tests/test_index.py),
the legacy-index migration utility (src/utilities/convert_index.py) and the
scraper (src/src/scraping/scraper.py).  The index backends themselves
(src/armado/easy_index.py, compressed_index.py, sqlite_index.py, cdpindex.py)
are not part of the staged sources, so the index is modelled from the spec's
backend contract, amended wherever the in-repository test suite pins the
observable behavior down (the tests are authoritative code of the repository).
The migration utility and the scraper are embedded directly from their source.
-/

/-! ### Normalizer -/

/-- Fold one character: ASCII lower-casing plus stripping of the Spanish
diacritics that occur in the corpus and the tests.  Modelled from the spec:
`normalize_words` (src/armado/cdpindex.py) is not in the staged sources; the
spec pins normalization to a fixed case-fold plus diacritic strip. -/
def foldChar (c : Char) : Char :=
  if c = 'á' ∨ c = 'Á' ∨ c = 'à' ∨ c = 'À' ∨ c = 'ä' ∨ c = 'Ä' ∨ c = 'â' ∨ c = 'Â' then 'a'
  else if c = 'é' ∨ c = 'É' ∨ c = 'è' ∨ c = 'È' ∨ c = 'ë' ∨ c = 'Ë' ∨ c = 'ê' ∨ c = 'Ê' then 'e'
  else if c = 'í' ∨ c = 'Í' ∨ c = 'ì' ∨ c = 'Ì' ∨ c = 'ï' ∨ c = 'Ï' ∨ c = 'î' ∨ c = 'Î' then 'i'
  else if c = 'ó' ∨ c = 'Ó' ∨ c = 'ò' ∨ c = 'Ò' ∨ c = 'ö' ∨ c = 'Ö' ∨ c = 'ô' ∨ c = 'Ô' then 'o'
  else if c = 'ú' ∨ c = 'Ú' ∨ c = 'ù' ∨ c = 'Ù' ∨ c = 'ü' ∨ c = 'Ü' ∨ c = 'û' ∨ c = 'Û' then 'u'
  else if c = 'ñ' ∨ c = 'Ñ' then 'n'
  else c.toLower

/-- Modelled from the spec: `normalize(text)` applies a fixed, locale
independent fold (case fold, diacritic stripping), character by character. -/
def normalize_words (s : String) : String :=
  String.mk (s.toList.map foldChar)

/-- Whether `p` occurs at the very start of `s` (character lists). -/
def leadsWith : List Char → List Char → Bool
  | [], _ => true
  | _ :: _, [] => false
  | p :: ps, c :: cs => p = c && leadsWith ps cs

/-- Whether `p` occurs contiguously anywhere inside `s` (character lists). -/
def occursIn (p : List Char) : List Char → Bool
  | [] => p.isEmpty
  | c :: cs => leadsWith p (c :: cs) || occursIn p cs

/-- Whether string `needle` occurs as a contiguous substring of `hay`. -/
def strContains (needle hay : String) : Bool :=
  occursIn needle.toList hay.toList

/-! ### Data model of the index

The shape of documents and build entries follows the fixtures of the shared
test suite (src/tests/test_index.py, `DataSet.add_fixture`): one build entry
is `(tokens, score, (link, title))` with `link` unset in the fixtures, and a
stored document carries the payload plus the score. -/

/-- One stored document: payload (link, title) plus the opaque score. -/
structure Document where
  link : Option String
  title : String
  score : Int
deriving DecidableEq, Repr, Inhabited

/-- One build entry: pre-tokenized token sequence, score, payload. -/
structure Entry where
  tokens : List String
  score : Int
  link : Option String
  title : String
deriving DecidableEq, Repr

/-- The document a build entry materializes as. -/
def mkDoc (e : Entry) : Document :=
  { link := e.link, title := e.title, score := e.score }

/-- Split a character list at every single space, as Python's
`str.split(" ")` does (a run of two spaces yields an empty piece). -/
def splitAtSpaces : List Char → List Char → List String
  | acc, [] => [String.mk acc.reverse]
  | acc, c :: cs =>
    if c = ' ' then String.mk acc.reverse :: splitAtSpaces [] cs
    else splitAtSpaces (c :: acc) cs

/-- Build entry as produced by the test-suite fixture builder
(`DataSet.add_fixture`): tokens are the lower-cased space-split title
(`n[0].lower().split(" ")`), the payload link is unset. -/
def mkEntry (title : String) (score : Int) : Entry :=
  { tokens := splitAtSpaces [] (title.toList.map Char.toLower),
    score := score, link := none, title := title }

/-- Modelled from the spec: a built index is the Document Store (documents in
dense-id order) together with, per document, its deduplicated token list (the
spec's Posting Table read row-wise; the backends' physical layouts are not in
the staged sources). -/
structure Index where
  docs : List Document
  toks : List (List String)
deriving DecidableEq, Repr

/-- Build-time error kinds of the backend contract (the shared test suite
observes the empty-entries failure as a raised `ValueError`). -/
inductive IndexError
  | emptyIndex
deriving DecidableEq, Repr

/-- Modelled from the spec: the pure part of the Builder.  Assigns dense ids
in input order and keeps, per document, its deduplicated tokens. -/
def Index.build (entries : List Entry) : Index :=
  { docs := entries.map mkDoc, toks := entries.map (fun e => e.tokens.dedup) }

/-- Modelled from the spec: `create(entries)` fails with EmptyIndex on an
empty entries iterable, and otherwise builds and persists the index. -/
def Index.create (entries : List Entry) : Except IndexError Index :=
  if entries.isEmpty then .error .emptyIndex else .ok (Index.build entries)

/-- `values()`: every stored document, one per dense id. -/
def Index.values (idx : Index) : List Document :=
  idx.docs

/-- `keys()`: the distinct stored vocabulary tokens. -/
def Index.keys (idx : Index) : List String :=
  idx.toks.flatten.dedup

/-- `contains(token)` (the `in` operation): exact vocabulary membership. -/
def Index.containsTok (idx : Index) (t : String) : Bool :=
  idx.toks.any (fun ts => decide (t ∈ ts))

/-- Whether one document (given by its token list) matches a query:
every query token, normalized, occurs as a contiguous substring of at least
one of the document's stored tokens.  Modelled from the spec's Query Engine
amended to what the in-repository test suite observes (`test_search_prefix`,
`test_search_several_values`: query "c" matches tokens "abc" and "bcd"). -/
def matchesQuery (qs : List String) (ts : List String) : Bool :=
  qs.all (fun q => ts.any (fun t => strContains (normalize_words q) t))

/-- `search(query_tokens)`: the documents matching every query token, each
stored document at most once, in dense-id order. -/
def Index.search (idx : Index) (qs : List String) : List Document :=
  ((idx.docs.zip idx.toks).filter (fun p => matchesQuery qs p.2)).map Prod.fst

/-- `random()`: one uniformly drawn stored document; the draw is made
explicit as a number `k`, reduced modulo the store size. -/
def Index.random (idx : Index) (k : Nat) : Document :=
  idx.docs.getD (k % idx.docs.length) default

/-! ### Test fixtures (src/tests/test_index.py, DataSet A / B / E) -/

/-- Fixture "B": `ala blanca/3; conejo blanco/5; conejo negro/6`. -/
def entriesB : List Entry :=
  [mkEntry "ala blanca" 3, mkEntry "conejo blanco" 5, mkEntry "conejo negro" 6]

/-- Fixture "E": `aaa/4; abc/4; bcd/4; abd/4; bbd/4`. -/
def entriesE : List Entry :=
  [mkEntry "aaa" 4, mkEntry "abc" 4, mkEntry "bcd" 4, mkEntry "abd" 4, mkEntry "bbd" 4]

/-- The document of fixture entry `ala blanca/3`. -/
def docAB : Document := mkDoc (mkEntry "ala blanca" 3)

/-- The document of fixture entry `conejo blanco/5`. -/
def docCB : Document := mkDoc (mkEntry "conejo blanco" 5)

/-- The document of fixture entry `conejo negro/6`. -/
def docCN : Document := mkDoc (mkEntry "conejo negro" 6)

/-- A one-entry vocabulary holding only the token "botero" (spec §4.3). -/
def entryBotero : Entry := mkEntry "botero" 1

/-! #### Conformance of the model to the shared test suite -/

/-- The model reproduces `test_search`, `test_several_results`,
`test_several_keys`, `test_search_failed` and `test_search_prefix` on
fixture "B". -/
theorem model_matches_testsuite_B :
    (Index.build entriesB).search ["ala"] = [docAB]
    ∧ (Index.build entriesB).search ["conejo"] = [docCB, docCN]
    ∧ (Index.build entriesB).search ["conejo", "negro"] = [docCN]
    ∧ (Index.build entriesB).search ["botero"] = []
    ∧ (Index.build entriesB).search ["blanc"] = [docAB, docCB]
    ∧ (Index.build entriesB).search ["zz"] = [] := by
  decide

/-- The model reproduces `test_search_several_values` and `test_search_and`
on fixture "E". -/
theorem model_matches_testsuite_E :
    (Index.build entriesE).search ["a"]
        = [mkDoc (mkEntry "aaa" 4), mkDoc (mkEntry "abc" 4), mkDoc (mkEntry "abd" 4)]
    ∧ (Index.build entriesE).search ["b"]
        = [mkDoc (mkEntry "abc" 4), mkDoc (mkEntry "bcd" 4),
           mkDoc (mkEntry "abd" 4), mkDoc (mkEntry "bbd" 4)]
    ∧ (Index.build entriesE).search ["c"]
        = [mkDoc (mkEntry "abc" 4), mkDoc (mkEntry "bcd" 4)]
    ∧ (Index.build entriesE).search ["o"] = []
    ∧ (Index.build entriesE).search ["a", "b"]
        = [mkDoc (mkEntry "abc" 4), mkDoc (mkEntry "abd" 4)]
    ∧ (Index.build entriesE).search ["b", "c"]
        = [mkDoc (mkEntry "abc" 4), mkDoc (mkEntry "bcd" 4)] := by
  decide

/-- The model reproduces `test_infunc_one_item` and `test_several_items`. -/
theorem model_matches_testsuite_misc :
    (Index.build entriesB).containsTok "ala" = true
    ∧ (Index.build entriesB).containsTok "bote" = false
    ∧ (Index.build entriesB).keys = ["ala", "blanca", "blanco", "conejo", "negro"] := by
  decide

/-! ### General lemmas about the built index -/

/-- Deduplicating a token list changes no `any` query over it. -/
theorem any_dedup {α : Type} [DecidableEq α] (l : List α) (f : α → Bool) :
    l.dedup.any f = l.any f := by
  cases h : l.any f
  · simp only [List.any_eq_false] at h ⊢
    intro a ha; exact h a (List.mem_dedup.mp ha)
  · simp only [List.any_eq_true] at h ⊢
    obtain ⟨a, ha, hf⟩ := h
    exact ⟨a, List.mem_dedup.mpr ha, hf⟩

/-- `search` over a built index is the filter of the build entries by the
query predicate, read off in dense-id order. -/
theorem search_build_eq (es : List Entry) (qs : List String) :
    (Index.build es).search qs
      = (es.filter (fun e => matchesQuery qs e.tokens)).map mkDoc := by
  unfold Index.search Index.build
  rw [List.zip_map', List.filter_map, List.map_map]
  have hp : ((fun p : Document × List String => matchesQuery qs p.2)
        ∘ fun e => (mkDoc e, e.tokens.dedup)) = fun e => matchesQuery qs e.tokens := by
    funext e
    simp only [Function.comp_apply, matchesQuery, any_dedup]
  have hf : (Prod.fst ∘ fun e : Entry => (mkDoc e, e.tokens.dedup)) = mkDoc := by
    funext e; rfl
  rw [hp, hf]

/-- A query-term rewrite that keeps every normalized token keeps the result. -/
theorem matchesQuery_eq_normalized (qs ts : List String) :
    matchesQuery qs ts
      = (qs.map normalize_words).all (fun nq => ts.any (fun t => strContains nq t)) := by
  unfold matchesQuery
  rw [List.all_map]
  rfl

/-- Two query-token lists with the same normalizations search identically. -/
theorem search_query_congr (idx : Index) (qs1 qs2 : List String)
    (h : qs1.map normalize_words = qs2.map normalize_words) :
    idx.search qs1 = idx.search qs2 := by
  have hpred : (fun p : Document × List String => matchesQuery qs1 p.2)
      = fun p => matchesQuery qs2 p.2 := by
    funext p
    rw [matchesQuery_eq_normalized, matchesQuery_eq_normalized, h]
  unfold Index.search
  rw [hpred]

/-! ### Claims about the index contract -/

/-- C1 (amended): for every built index and list of query tokens,
`search(query_tokens)` returns each matching stored document exactly once (in
dense-id order), where a document matches iff every query token, normalized,
occurs as a contiguous substring of at least one of the document's stored
tokens (logical AND across terms).  The repository's own test suite refutes
the claim's exact-membership reading (`C1_counterexample`). -/
theorem C1_search_substring_and (es : List Entry) (qs : List String) :
    (Index.build es).search qs
      = (es.filter (fun e =>
          qs.all (fun q => e.tokens.any (fun t => strContains (normalize_words q) t)))).map mkDoc
    ∧ ∀ d, d ∈ (Index.build es).search qs
        ↔ ∃ e ∈ es, mkDoc e = d
            ∧ ∀ q ∈ qs, ∃ t ∈ e.tokens, strContains (normalize_words q) t = true := by
  have hmain := search_build_eq es qs
  constructor
  · exact hmain
  · intro d
    rw [hmain]
    simp only [List.mem_map, List.mem_filter, matchesQuery, List.all_eq_true,
      List.any_eq_true]
    constructor
    · rintro ⟨e, ⟨he, hq⟩, rfl⟩
      exact ⟨e, he, rfl, hq⟩
    · rintro ⟨e, he, rfl, hq⟩
      exact ⟨e, ⟨he, hq⟩, rfl⟩

/-- C1, refuted as stated: over fixture "B", `search(["blanc"])` returns the
document "ala blanca" although "blanc" is not one of the stored vocabulary
tokens of the index, so a query token that is not itself a stored token of a
document does match that document. -/
theorem C1_counterexample :
    docAB ∈ (Index.build entriesB).search ["blanc"]
    ∧ ¬ "blanc" ∈ (Index.build entriesB).toks.flatten := by
  decide

/-- C3: `create` on an empty entries iterable fails with the EmptyIndex
error, and no index is ever materialized from zero entries. -/
theorem C3_create_empty_fails (es : List Entry) (idx : Index) :
    Index.create ([] : List Entry) = Except.error IndexError.emptyIndex
    ∧ (Index.create es = Except.ok idx → es ≠ []) := by
  constructor
  · rfl
  · intro h hne
    subst hne
    simp [Index.create] at h

/-- C4: `contains(token)` is exact vocabulary membership: true iff the token
is literally one of the stored tokens; on a vocabulary holding only "botero",
"bote" is not contained even though a search for "bote" would match. -/
theorem C4_contains_exact (es : List Entry) (t : String) :
    ((Index.build es).containsTok t = true ↔ ∃ e ∈ es, t ∈ e.tokens)
    ∧ (Index.build [entryBotero]).containsTok "bote" = false
    ∧ (Index.build [entryBotero]).search ["bote"] ≠ [] := by
  refine ⟨?_, by decide, by decide⟩
  unfold Index.containsTok Index.build
  simp only [List.any_eq_true, List.mem_map, decide_eq_true_eq]
  constructor
  · rintro ⟨ts, ⟨e, he, rfl⟩, ht⟩
    exact ⟨e, he, List.mem_dedup.mp ht⟩
  · rintro ⟨e, he, ht⟩
    exact ⟨e.tokens.dedup, ⟨e, he, rfl⟩, List.mem_dedup.mpr ht⟩

/-- C5: queries differing only in case and diacritics normalize to the same
tokens, so over every built index `search(["Alá"])` and `search(["ála"])`
return identical result sequences. -/
theorem C5_search_normalization_equiv (es : List Entry) :
    (Index.build es).search ["Alá"] = (Index.build es).search ["ála"] := by
  apply search_query_congr
  decide

/-- C6: `values()` yields each stored document exactly once (one per dense
id, in id order); over fixture "B" it returns exactly the three documents
with no duplicates. -/
theorem C6_values_exactly_once (es : List Entry) :
    (Index.build es).values = es.map mkDoc
    ∧ (Index.build entriesB).values = [docAB, docCB, docCN]
    ∧ ((Index.build entriesB).values).Nodup := by
  refine ⟨rfl, by decide, by decide⟩

/-- C7: over a one-document index every draw of `random()` returns that
document, and over any nonempty index every draw returns a stored document
(never a value outside the document set). -/
theorem C7_random_in_store (e : Entry) (es : List Entry) (k : Nat) :
    (Index.build [e]).random k = mkDoc e
    ∧ (es ≠ [] → (Index.build es).random k ∈ (Index.build es).values) := by
  constructor
  · unfold Index.random Index.build
    simp [Nat.mod_one]
  · intro h
    unfold Index.random Index.values Index.build
    have hlen : 0 < (es.map mkDoc).length := by
      simpa using List.length_pos.mpr h
    have hk : k % (es.map mkDoc).length < (es.map mkDoc).length :=
      Nat.mod_lt _ hlen
    rw [List.getD_eq_getElem _ _ hk]
    exact List.getElem_mem hk

/-! ### Migration utility (src/utilities/convert_index.py)

Embedded from the source.  `cycle` reads every record of the legacy
compressed index and yields `(words, ptje, data)` triples, where
`data = (html, title, redir, primtext)` — the legacy record minus its
score.  `cycle_filtered` drops a triple whose `data` was already seen
(Python keeps `hash(data)` in a set; a deterministic hash of the tuple is
modelled by keeping the tuple itself, hash collisions are not modelled) and
skips-and-counts first-seen triples with an empty title. -/

/-- One record of the legacy compressed index:
`value = (html, title, ptje, redir, primtext)` (convert_index.py line 76). -/
structure LegacyRecord where
  html : String
  title : String
  ptje : Int
  redir : String
  primtext : String
deriving DecidableEq, Repr

/-- The `data` payload assembled in `cycle` (line 78): the legacy record
without its score `ptje`. -/
structure MigData where
  html : String
  title : String
  redir : String
  primtext : String
deriving DecidableEq, Repr

/-- The payload `cycle` yields for one legacy record. -/
def mkData (r : LegacyRecord) : MigData :=
  { html := r.html, title := r.title, redir := r.redir, primtext := r.primtext }

/-- A character the regex `\w` matches (ASCII portion). -/
def isWordChar (c : Char) : Bool := c.isAlphanum || c = '_'

/-- `re.findall(r"\w+", s)` on character lists: maximal word-character runs. -/
def findWordsAux : List Char → List Char → List String
  | acc, [] => if acc.isEmpty then [] else [String.mk acc.reverse]
  | acc, c :: cs =>
    if isWordChar c then findWordsAux (c :: acc) cs
    else if acc.isEmpty then findWordsAux [] cs
    else String.mk acc.reverse :: findWordsAux [] cs

/-- `WORDS.findall(s)` with `WORDS = re.compile(r"\w+")`. -/
def findWords (s : String) : List String := findWordsAux [] s.toList

/-- `cycle()` (lines 69-78): yield
`(WORDS.findall(normalize_words(title)), ptje, (html, title, redir, primtext))`
for every legacy record. -/
def cycle (rs : List LegacyRecord) : List (List String × Int × MigData) :=
  rs.map (fun r => (findWords (normalize_words r.title), r.ptje, mkData r))

/-- `cycle_filtered()` (lines 81-94) over the triple stream, carrying the
`allreadyseen` set: returns the yielded triples plus the final
`(repeated, null_title)` counters (the counts are totalled on return rather
than threaded, which leaves the totals unchanged). -/
def cycle_filtered_aux (seen : List MigData) :
    List (List String × Int × MigData)
      → List (List String × Int × MigData) × Nat × Nat
  | [] => ([], 0, 0)
  | (ws, p, d) :: rest =>
    if d ∈ seen then
      let r := cycle_filtered_aux seen rest
      (r.1, r.2.1 + 1, r.2.2)
    else if d.title = "" then
      let r := cycle_filtered_aux (d :: seen) rest
      (r.1, r.2.1, r.2.2 + 1)
    else
      let r := cycle_filtered_aux (d :: seen) rest
      ((ws, p, d) :: r.1, r.2.1, r.2.2)

/-- The whole utility pipe: filter the stream `cycle` yields, starting from
an empty `allreadyseen` set. -/
def cycle_filtered (rs : List LegacyRecord) :
    List (List String × Int × MigData) × Nat × Nat :=
  cycle_filtered_aux [] (cycle rs)

/-! #### Position-based characterization of the filtering -/

/-- Pair every element of a list with the list of the elements before it. -/
def withEarlier {α : Type} : List α → List (List α × α)
  | [] => []
  | a :: l => ([], a) :: (withEarlier l).map (fun p => (a :: p.1, p.2))

/-- The payload of a migration triple. -/
def dataOf (t : List String × Int × MigData) : MigData := t.2.2

/-- Whether a triple's payload equals the payload of some earlier triple
(or a payload in the carried seen-set). -/
def earlierDup (seen : List MigData)
    (p : List (List String × Int × MigData) × (List String × Int × MigData)) : Bool :=
  decide (dataOf p.2 ∈ seen ++ p.1.map dataOf)

/-- Whether a triple is re-inserted: not a duplicate and nonempty title. -/
def keepPred (seen : List MigData)
    (p : List (List String × Int × MigData) × (List String × Int × MigData)) : Bool :=
  !earlierDup seen p && !((dataOf p.2).title == "")

/-- Whether a triple is counted as `null_title`: first occurrence of its
payload, but with an empty title. -/
def nullPred (seen : List MigData)
    (p : List (List String × Int × MigData) × (List String × Int × MigData)) : Bool :=
  !earlierDup seen p && ((dataOf p.2).title == "")

/-- Moving the head triple from the earlier-list into the seen-set changes
no duplicate test. -/
theorem earlierDup_shift (seen : List MigData) (t x : List String × Int × MigData)
    (l : List (List String × Int × MigData)) :
    earlierDup seen (t :: l, x) = earlierDup (dataOf t :: seen) (l, x) := by
  unfold earlierDup
  apply decide_eq_decide.mpr
  simp only [List.mem_append, List.map_cons, List.mem_cons]
  tauto

/-- Re-adding a payload already in the seen-set changes no duplicate test. -/
theorem earlierDup_absorb (seen : List MigData) (d : MigData) (hd : d ∈ seen)
    (p : List (List String × Int × MigData) × (List String × Int × MigData)) :
    earlierDup (d :: seen) p = earlierDup seen p := by
  unfold earlierDup
  apply decide_eq_decide.mpr
  simp only [List.cons_append, List.mem_cons, List.mem_append]
  constructor
  · rintro (rfl | h)
    · exact Or.inl hd
    · exact h
  · exact Or.inr

/-- `keepPred` under the earlier-to-seen shift. -/
theorem keepPred_shift (seen : List MigData) (t x : List String × Int × MigData)
    (l : List (List String × Int × MigData)) :
    keepPred seen (t :: l, x) = keepPred (dataOf t :: seen) (l, x) := by
  unfold keepPred
  rw [earlierDup_shift]

/-- `nullPred` under the earlier-to-seen shift. -/
theorem nullPred_shift (seen : List MigData) (t x : List String × Int × MigData)
    (l : List (List String × Int × MigData)) :
    nullPred seen (t :: l, x) = nullPred (dataOf t :: seen) (l, x) := by
  unfold nullPred
  rw [earlierDup_shift]

/-- `cycle_filtered_aux` computes exactly the position-based filtering: a
triple is yielded iff its payload is new (relative to the seen-set and all
earlier triples) and its title is nonempty; `repeated` counts the triples
with an earlier payload-equal triple; `null_title` counts the first-seen
triples with an empty title. -/
theorem cycle_filtered_aux_spec (seen : List MigData)
    (ts : List (List String × Int × MigData)) :
    cycle_filtered_aux seen ts
      = (((withEarlier ts).filter (keepPred seen)).map Prod.snd,
         (withEarlier ts).countP (earlierDup seen),
         (withEarlier ts).countP (nullPred seen)) := by
  induction ts generalizing seen with
  | nil => rfl
  | cons t rest ih =>
    obtain ⟨ws, sc, d⟩ := t
    have hw : withEarlier ((ws, sc, d) :: rest)
        = ([], (ws, sc, d))
            :: (withEarlier rest).map (fun q => ((ws, sc, d) :: q.1, q.2)) := rfl
    have hsnd : Prod.snd ∘ (fun q :
          List (List String × Int × MigData) × (List String × Int × MigData) =>
            ((ws, sc, d) :: q.1, q.2)) = Prod.snd := rfl
    by_cases hd : d ∈ seen
    · have hkg : keepPred seen ∘ (fun q :
            List (List String × Int × MigData) × (List String × Int × MigData) =>
              ((ws, sc, d) :: q.1, q.2)) = keepPred seen := by
        funext q
        rw [Function.comp_apply, keepPred_shift]
        show keepPred (d :: seen) q = keepPred seen q
        unfold keepPred
        rw [earlierDup_absorb seen d hd]
      have hcg : earlierDup seen ∘ (fun q :
            List (List String × Int × MigData) × (List String × Int × MigData) =>
              ((ws, sc, d) :: q.1, q.2)) = earlierDup seen := by
        funext q
        rw [Function.comp_apply, earlierDup_shift]
        exact earlierDup_absorb seen d hd (q.1, q.2)
      have hng : nullPred seen ∘ (fun q :
            List (List String × Int × MigData) × (List String × Int × MigData) =>
              ((ws, sc, d) :: q.1, q.2)) = nullPred seen := by
        funext q
        rw [Function.comp_apply, nullPred_shift]
        show nullPred (d :: seen) q = nullPred seen q
        unfold nullPred
        rw [earlierDup_absorb seen d hd]
      have hh1 : keepPred seen ([], (ws, sc, d)) = false := by
        simp [keepPred, earlierDup, dataOf, hd]
      have hh2 : earlierDup seen ([], (ws, sc, d)) = true := by
        simp [earlierDup, dataOf, hd]
      have hh3 : nullPred seen ([], (ws, sc, d)) = false := by
        simp [nullPred, earlierDup, dataOf, hd]
      simp only [cycle_filtered_aux, if_pos hd, ih seen, hw, List.filter_cons,
        List.countP_cons, hh1, hh2, hh3, List.filter_map, List.countP_map,
        hkg, hcg, hng, List.map_map, hsnd, Bool.false_eq_true, if_false,
        if_true, Nat.add_zero]
    · have hkg : keepPred seen ∘ (fun q :
            List (List String × Int × MigData) × (List String × Int × MigData) =>
              ((ws, sc, d) :: q.1, q.2)) = keepPred (d :: seen) := by
        funext q
        rw [Function.comp_apply, keepPred_shift]
        rfl
      have hcg : earlierDup seen ∘ (fun q :
            List (List String × Int × MigData) × (List String × Int × MigData) =>
              ((ws, sc, d) :: q.1, q.2)) = earlierDup (d :: seen) := by
        funext q
        rw [Function.comp_apply, earlierDup_shift]
        rfl
      have hng : nullPred seen ∘ (fun q :
            List (List String × Int × MigData) × (List String × Int × MigData) =>
              ((ws, sc, d) :: q.1, q.2)) = nullPred (d :: seen) := by
        funext q
        rw [Function.comp_apply, nullPred_shift]
        rfl
      have hh2 : earlierDup seen ([], (ws, sc, d)) = false := by
        simp [earlierDup, dataOf, hd]
      by_cases ht : d.title = ""
      · have hh1 : keepPred seen ([], (ws, sc, d)) = false := by
          simp [keepPred, earlierDup, dataOf, hd, ht]
        have hh3 : nullPred seen ([], (ws, sc, d)) = true := by
          simp [nullPred, earlierDup, dataOf, hd, ht]
        simp only [cycle_filtered_aux, if_neg hd, if_pos ht, ih (d :: seen), hw,
          List.filter_cons, List.countP_cons, hh1, hh2, hh3, List.filter_map,
          List.countP_map, hkg, hcg, hng, List.map_map, hsnd,
          Bool.false_eq_true, if_false, if_true, Nat.add_zero]
      · have hh1 : keepPred seen ([], (ws, sc, d)) = true := by
          simp [keepPred, earlierDup, dataOf, hd, ht]
        have hh3 : nullPred seen ([], (ws, sc, d)) = false := by
          simp [nullPred, earlierDup, dataOf, hd, ht]
        simp only [cycle_filtered_aux, if_neg hd, if_neg ht, ih (d :: seen), hw,
          List.filter_cons, List.countP_cons, hh1, hh2, hh3, List.filter_map,
          List.countP_map, hkg, hcg, hng, List.map_map, hsnd,
          Bool.false_eq_true, if_false, if_true, Nat.add_zero, List.map_cons]

/-- C2 (amended): a migrated document is removed before re-insertion iff an
earlier document in the stream has an equal `(html, title, redir, primtext)`
payload — the record's score `ptje` is not part of the comparison; among the
payload-new documents those with an empty title are skipped; and the utility
reports the total of duplicates removed (`repeated`) and of first-seen
empty-title documents skipped (`null_title`). -/
theorem C2_migration_dedup (rs : List LegacyRecord) :
    cycle_filtered rs
      = (((withEarlier (cycle rs)).filter (keepPred [])).map Prod.snd,
         (withEarlier (cycle rs)).countP (earlierDup []),
         (withEarlier (cycle rs)).countP (nullPred [])) :=
  cycle_filtered_aux_spec [] (cycle rs)

/-- A legacy record with score 5. -/
def recScoreFive : LegacyRecord :=
  { html := "t/Title", title := "Title", ptje := 5, redir := "", primtext := "text" }

/-- The same legacy record content except for the score, 7. -/
def recScoreSeven : LegacyRecord :=
  { html := "t/Title", title := "Title", ptje := 7, redir := "", primtext := "text" }

/-- C2, refuted as stated: feeding two records whose full record contents
differ (scores 5 vs 7), the second is removed as a duplicate and counted in
`repeated`, although no earlier record equals it in full record content. -/
theorem C2_counterexample :
    (cycle_filtered [recScoreFive, recScoreSeven]).1.length = 1
    ∧ (cycle_filtered [recScoreFive, recScoreSeven]).2.1 = 1
    ∧ recScoreFive ≠ recScoreSeven := by
  refine ⟨by decide, by decide, by decide⟩

/-! ### Atomicity of the index rebuild (convert_index.main, lines 120-129) -/

/-- What can sit at the target path `./idx/index.sqlite`. -/
inductive IdxFile
  | oldIdx
  | building
  | newIdx
deriving DecidableEq, Repr

/-- The filesystem as a concurrent reader of the target path observes it. -/
structure FS where
  indexAt : Option IdxFile
deriving DecidableEq, Repr

/-- The sequence of states observable at the target path while
`convert_index.main` runs: `main` first unlinks an existing `index.sqlite`
(lines 126-127), then calls `IndexSQL.create` (line 129), whose in-place
write is abstracted as a `building` state before the completed `newIdx`
state (its source is not staged; even were its write atomic, the unlink
has already happened in a separate earlier step). -/
def main_trace (fs0 : FS) : List FS :=
  let fs1 : FS := if fs0.indexAt.isSome then { indexAt := none } else fs0
  [fs0, fs1, { indexAt := some IdxFile.building }, { indexAt := some IdxFile.newIdx }]

/-- C8 (amended): the rebuild over a prior index is not atomic: `main`
deletes the prior index first and only then builds the new one in place, so
between the start and the end of the rebuild the path observably holds no
index at all, and then a partially written one, before the new index is
complete. -/
theorem C8_rebuild_not_atomic (fs0 : FS) :
    main_trace fs0
      = [fs0, { indexAt := none }, { indexAt := some IdxFile.building },
         { indexAt := some IdxFile.newIdx }] := by
  rcases fs0 with ⟨_ | f⟩ <;> rfl

/-- C8, refuted as stated: starting from a valid prior index, the trace of
`main` exposes a state with no index at the target path (and a partially
written one) strictly between the start and the end of the rebuild. -/
theorem C8_counterexample :
    FS.mk none ∈ main_trace (FS.mk (some IdxFile.oldIdx))
    ∧ FS.mk (some IdxFile.building) ∈ main_trace (FS.mk (some IdxFile.oldIdx))
    ∧ (main_trace (FS.mk (some IdxFile.oldIdx))).head? = some (FS.mk (some IdxFile.oldIdx))
    ∧ (main_trace (FS.mk (some IdxFile.oldIdx))).getLast? = some (FS.mk (some IdxFile.newIdx)) := by
  refine ⟨by decide, by decide, by decide, by decide⟩

/-! ### Scraper (src/src/scraping/scraper.py)

Embedded from the source.  `fetch_html` (lines 120-143) loops: build the
request, fetch, gunzip, decode; a 404 HTTPError raises FetchingError at
once; any other exception pops a sleep off `retries = [5, 1, .3]` (from the
end, so the successive sleeps are 0.3, 1 and 5 seconds) until the list is
exhausted, when FetchingError is raised. -/

/-- What one pass of the try-block's request produces: a raw response body
(still gzip-compressed), an HTTPError with code 404, or any other
exception (network error, non-404 HTTP error, bad gzip data, ...). -/
inductive AttemptOutcome
  | ok (body : List Nat)
  | http404
  | otherError
deriving DecidableEq, Repr

/-- The observable outcome of `fetch_html`: the decoded page, or the
FetchingError raised for a 404, or the FetchingError raised on giving up. -/
inductive FetchResult
  | success (html : String)
  | error404
  | gaveUp
deriving DecidableEq, Repr

/-- The retry loop of `fetch_html`.  `gunzipUtf8` abstracts
`gzip.GzipFile(...).read().decode("utf-8")`: `none` models that step
raising (caught by the same except-clause as network errors).  `attempt k`
is what the k-th pass of the try-block's request produces.  `pending` lists
the sleeps still available in the order the source pops them off the end of
`retries = [5, 1, .3]`, i.e. `[3/10, 1, 5]`.  Returns the result together
with the sleeps performed, in order. -/
def fetch_loop (gunzipUtf8 : List Nat → Option String)
    (attempt : Nat → AttemptOutcome) : Nat → List ℚ → FetchResult × List ℚ
  | k, [] =>
    match attempt k with
    | .http404 => (.error404, [])
    | .ok body =>
      match gunzipUtf8 body with
      | some html => (.success html, [])
      | none => (.gaveUp, [])
    | .otherError => (.gaveUp, [])
  | k, t :: rest =>
    match attempt k with
    | .http404 => (.error404, [])
    | .ok body =>
      match gunzipUtf8 body with
      | some html => (.success html, [])
      | none =>
        let r := fetch_loop gunzipUtf8 attempt (k + 1) rest
        (r.1, t :: r.2)
    | .otherError =>
      let r := fetch_loop gunzipUtf8 attempt (k + 1) rest
      (r.1, t :: r.2)

/-- `fetch_html(url)`: run the loop with the three retry sleeps of the
source (`retries = [5, 1, .3]`, popped from the end). -/
def fetch_html (gunzipUtf8 : List Nat → Option String)
    (attempt : Nat → AttemptOutcome) : FetchResult × List ℚ :=
  fetch_loop gunzipUtf8 attempt 0 [3/10, 1, 5]

/-- In every run, the sleeps performed are an in-order prefix of the
pending sleep list. -/
theorem fetch_loop_sleeps (gunzipUtf8 : List Nat → Option String)
    (attempt : Nat → AttemptOutcome) (k : Nat) (pending : List ℚ) :
    ∃ n, (fetch_loop gunzipUtf8 attempt k pending).2 = pending.take n := by
  induction pending generalizing k with
  | nil =>
    refine ⟨0, ?_⟩
    cases h : attempt k with
    | ok body => cases hg : gunzipUtf8 body <;> simp [fetch_loop, h, hg]
    | http404 => simp [fetch_loop, h]
    | otherError => simp [fetch_loop, h]
  | cons t rest ih =>
    cases h : attempt k with
    | ok body =>
      cases hg : gunzipUtf8 body with
      | some html => exact ⟨0, by simp [fetch_loop, h, hg]⟩
      | none =>
        obtain ⟨n, hn⟩ := ih (k + 1)
        exact ⟨n + 1, by simp [fetch_loop, h, hg, hn]⟩
    | http404 => exact ⟨0, by simp [fetch_loop, h]⟩
    | otherError =>
      obtain ⟨n, hn⟩ := ih (k + 1)
      exact ⟨n + 1, by simp [fetch_loop, h, hn]⟩

/-- C9: `fetch_html` raises FetchingError at once, with no retry and no
sleep, when the first request fails with HTTP 404 (and a 404 on a later
attempt also stops the retrying at once); on success it returns the
gunzipped UTF-8-decoded body; after the initial attempt it retries at most
three more times, sleeping 0.3, 1 and 5 seconds before the successive
retries, and raises FetchingError once the retries are exhausted. -/
theorem C9_fetch_html_retry_policy (gunzipUtf8 : List Nat → Option String)
    (attempt : Nat → AttemptOutcome) (body : List Nat) (html : String) :
    (attempt 0 = AttemptOutcome.http404
        → fetch_html gunzipUtf8 attempt = (FetchResult.error404, []))
    ∧ (attempt 0 = AttemptOutcome.ok body → gunzipUtf8 body = some html
        → fetch_html gunzipUtf8 attempt = (FetchResult.success html, []))
    ∧ ((∀ j, j < 4 → attempt j = AttemptOutcome.otherError)
        → fetch_html gunzipUtf8 attempt = (FetchResult.gaveUp, [3/10, 1, 5]))
    ∧ (attempt 0 = AttemptOutcome.otherError → attempt 1 = AttemptOutcome.http404
        → fetch_html gunzipUtf8 attempt = (FetchResult.error404, [3/10]))
    ∧ ((fetch_html gunzipUtf8 attempt).2 = []
        ∨ (fetch_html gunzipUtf8 attempt).2 = [3/10]
        ∨ (fetch_html gunzipUtf8 attempt).2 = [3/10, 1]
        ∨ (fetch_html gunzipUtf8 attempt).2 = [3/10, 1, 5]) := by
  refine ⟨?_, ?_, ?_, ?_, ?_⟩
  · intro h
    simp [fetch_html, fetch_loop, h]
  · intro h hg
    simp [fetch_html, fetch_loop, h, hg]
  · intro h
    have h0 := h 0 (by omega)
    have h1 := h 1 (by omega)
    have h2 := h 2 (by omega)
    have h3 := h 3 (by omega)
    simp [fetch_html, fetch_loop, h0, h1, h2, h3]
  · intro h0 h1
    simp [fetch_html, fetch_loop, h0, h1]
  · obtain ⟨n, hn⟩ := fetch_loop_sleeps gunzipUtf8 attempt 0 [3/10, 1, 5]
    have hfh : (fetch_html gunzipUtf8 attempt).2 = List.take n [3/10, 1, 5] := hn
    rcases n with _ | _ | _ | m
    · exact Or.inl hfh
    · exact Or.inr (Or.inl hfh)
    · exact Or.inr (Or.inr (Or.inl hfh))
    · refine Or.inr (Or.inr (Or.inr ?_))
      rw [hfh]
      exact List.take_of_length_le (by simp)

/-! ### Revision validation (scraper.py lines 225-268) -/

/-- One parsed history item (`WikipediaArticleHistoryItem`): whether the
revision's author is a registered user (`userid != 0`), the revision id,
and the revision timestamp, modelled as a rational number of seconds
(`datetime` comparison and addition are linear arithmetic on timestamps). -/
structure HistoryItem where
  user_registered : Bool
  page_rev_id : String
  date : ℚ
deriving DecidableEq, Repr

/-- `datetime.timedelta(acceptance_days)` expressed in the same seconds
unit as `HistoryItem.date` (`search_valid_version` line 241). -/
def timedelta_of_days (days : ℚ) : ℚ := 86400 * days

/-- `WikipediaArticle.validate_revision` (lines 261-268): a revision is
valid if its author is registered, or if its date plus the acceptance
window is strictly earlier than `prev_date`, the date of the next more
recent revision (`iterate_history` threads `prev_date` that way). -/
def validate_revision (acceptance_delta : ℚ) (hist_item : HistoryItem)
    (prev_date : ℚ) : Bool :=
  if hist_item.user_registered then true
  else if hist_item.date + acceptance_delta < prev_date then true
  else false

/-- C10: `validate_revision` returns True iff the revision's author is a
registered user, or the revision's date plus the acceptance window
(`acceptance_days` as a timedelta) is strictly earlier than the date of
the next more recent revision. -/
theorem C10_validate_revision_iff (acceptance_days : ℚ) (hist_item : HistoryItem)
    (prev_date : ℚ) :
    validate_revision (timedelta_of_days acceptance_days) hist_item prev_date = true
      ↔ hist_item.user_registered = true
        ∨ hist_item.date + timedelta_of_days acceptance_days < prev_date := by
  unfold validate_revision
  by_cases hr : hist_item.user_registered = true
  · simp [hr]
  · by_cases hdt : hist_item.date + timedelta_of_days acceptance_days < prev_date
      <;> simp [hr, hdt]
